import Mathlib

/-
Verification of the core logic of the `subs-grab` repository.

The development shallowly embeds the two source modules that carry the
program's logic:

* `filename_matcher.py` — the attribute-based match metric
  (`AttribMatchMetric`) and best-candidate selection (`FilenameMatcher`);
* `subs_grabber.py` — the per-asset acquisition orchestrator
  (`SubtitlesGrabber.grab_subtitles_for_file` and its helpers) and the
  batch runner (`grab_subtitles`).

External collaborators (the OpenSubtitles HTTP client, the PTN release
attribute parser, the filesystem) are modelled as explicit inputs: the
parser as a function `String → AttribMap`, the catalog response and the
local filesystem observations as fields of an `Env` record.  Python
floats only ever hold multiples of 0.5 here (weights 5, 1.5, 1, 1, 0.5
and sums/halves thereof), which doubles represent exactly, so scores are
embedded as rationals.  Python exceptions are embedded with an explicit
result type (`GrabResult`): a Python function that may raise is a Lean
function into `GrabResult`.
-/

set_option autoImplicit false

attribute [local semireducible] Rat.mul Rat.add Rat.inv Rat.sub

namespace SubsGrab

/-! ## filename_matcher.py — AttribMatchMetric -/

/-- An attribute map as produced by `PTN.parse`: a dictionary from string
keys to string values.  `a k = none` models `k not in a`. -/
abbrev AttribMap := String → Option String

/-- `self._missing_key_factor = .5` -/
def missing_key_factor : ℚ := 1/2

/-- `self._metric_weights` — the fixed per-key weights, in the source's
iteration order. -/
def metric_weights : List (String × ℚ) :=
  [("quality", 5), ("codec", 3/2), ("resolution", 1), ("encoder", 1), ("audio", 1/2)]

/-- `self._thresh = 2` -/
def thresh : ℚ := 2

/-- One iteration of the loop body of `AttribMatchMetric.__call__`:
`if k in a1 and k in a2: score += w * float(a1[k] == a2[k])
 else: score += w * self._missing_key_factor`. -/
def keyScore (a1 a2 : AttribMap) (k : String) (w : ℚ) : ℚ :=
  match a1 k, a2 k with
  | some v1, some v2 => w * (if v1 = v2 then 1 else 0)
  | _, _ => w * missing_key_factor

/-- `AttribMatchMetric.__call__(a1, a2)`: fold the loop body over the
weight dictionary starting from `score = 0`. -/
def attribMatchScore (a1 a2 : AttribMap) : ℚ :=
  metric_weights.foldl (fun score kw => score + keyScore a1 a2 kw.1 kw.2) 0

/-! ## filename_matcher.py — FilenameMatcher -/

/-- `FilenameMatcher.calc_match_scores(fn1, fns2)`:
`scores[i] = metric(parse(fn1), parse(fns2[i]))`.  `parse` stands for the
external `parse_fname` capability (PTN). -/
def calc_match_scores (parse : String → AttribMap) (fn1 : String) (fns2 : List String) :
    List ℚ :=
  fns2.map fun fn2 => attribMatchScore (parse fn1) (parse fn2)

/-- The exceptions the embedded code can raise.
`emptyCandidateSet` is the `ValueError` that Python's `max(scores)`
raises on an empty sequence (the condition §7 of the spec names
`EmptyCandidateSet`); `nfoType` is `NfoTypeError`; `multiCd` is the
`ValueError("Unexpected format: multi-cd")`; `indexError` is the
`IndexError` of `files[0]` on an empty file list; `assertFailed` is the
`AssertionError` of the `os.path.isfile(nfo_file)` assert. -/
inductive Err where
  | emptyCandidateSet
  | nfoType
  | multiCd
  | indexError
  | assertFailed
deriving DecidableEq, Repr

/-- Result of running a Python function that may raise: either an
exception propagates (`raised`) or a value is returned (`ret`). -/
inductive GrabResult (α : Type) where
  | raised (e : Err)
  | ret (a : α)
deriving DecidableEq, Repr

/-- Python's `max` on a list: `none` on the empty list (where CPython
raises `ValueError`), otherwise the fold of binary `max`. -/
def listMax : List ℚ → Option ℚ
  | [] => none
  | x :: xs => some (xs.foldl max x)

/-- Python's `list.index(x)`: index of the first occurrence of `x`
(total function; only ever used on members, where CPython returns). -/
def pyIndex {α : Type} [DecidableEq α] (x : α) : List α → Nat
  | [] => 0
  | y :: ys => if y = x then 0 else pyIndex x ys + 1

/-- `FilenameMatcher.get_best_match_ix(fn1, fns2)`:
`scores = calc_match_scores(...); max_score = max(scores)` (raises on an
empty list); `None` if `max_score < thresh`; else
`scores.index(max_score)`. -/
def get_best_match_ix (parse : String → AttribMap) (fn1 : String) (fns2 : List String) :
    GrabResult (Option Nat) :=
  let scores := calc_match_scores parse fn1 fns2
  match listMax scores with
  | none => .raised .emptyCandidateSet
  | some max_score =>
    if max_score < thresh then .ret none
    else .ret (some (pyIndex max_score scores))

/-! ## subs_grabber.py — data model -/

/-- One entry of a candidate's `attributes.files` array from the catalog:
`{file_id, file_name}` (`file_name` may be JSON null). -/
structure FileItem where
  file_id : Nat
  file_name : Option String
deriving DecidableEq, Inhabited, Repr

/-- A catalog search result item: `item.attributes.language` and
`item.attributes.files` are the only fields the core reads. -/
structure Candidate where
  language : String
  files : List FileItem
deriving DecidableEq, Inhabited, Repr

/-- Configuration of a `SubtitlesGrabber` instance: `self.languages`
(priority-ordered 2-letter codes), `self._get_all_langs`, and
`self._supports_multi_cd` (the constructor fixes the latter to
`false`; it is kept as a field so its role in the logic is explicit). -/
structure Config where
  languages : List String
  get_all_langs : Bool
  supports_multi_cd : Bool
deriving DecidableEq, Repr

/-- The external world as observed while processing a single asset:
the quota capability (`self.open_subtitles.remaining_downloads`), the
locally existing subtitle languages for the asset (the result of
`find_existing_subtitles_for_file`), whether the `.nfo` file exists
(`os.path.isfile(nfo_file)`), the `imdbid` field of the nfo
(`none` models `_read_nfo` raising `NfoTypeError`), the raw catalog
response for the one search the orchestrator issues, the release
attribute parser, and which destination paths hold a file after
`download_item` runs (`os.path.isfile(dst_stfile)`). -/
structure Env where
  remaining_downloads : Option Int
  existing_langs : List String
  nfo_exists : Bool
  nfo_imdb : Option String
  raw_search_results : List Candidate
  parse : String → AttribMap
  verify : String → Bool

/-- The `(status, info)` outcomes of `grab_subtitles_for_file`;
`downloaded` carries the list whose `", ".join` is the info string. -/
inductive Status where
  | exist
  | notfound
  | downloaded (langs : List String)
  | failed
  | dllimit
deriving DecidableEq, Repr

/-! ## subs_grabber.py — SubtitlesGrabber -/

/-- `SubtitlesGrabber.build_subtitle_filename(base_fname, lang)`. -/
def build_subtitle_filename (base_fname lang : String) : String :=
  base_fname ++ "." ++ lang ++ ".srt"

/-- `SubtitlesGrabber.has_downloads`:
`remaining_downloads is None or remaining_downloads > 0`. -/
def has_downloads (env : Env) : Bool :=
  match env.remaining_downloads with
  | none => true
  | some n => n > 0

/-- The filter in `SubtitlesGrabber.search`:
`len(r.files) == 1 and r.files[0].file_name is not None`. -/
def keepCandidate (r : Candidate) : Bool :=
  match r.files with
  | [f] => f.file_name.isSome
  | _ => false

/-- `SubtitlesGrabber.search(search_params)`: the raw catalog response,
filtered to single-file candidates with a non-null filename unless
multi-CD support is enabled. -/
def search (cfg : Config) (env : Env) : List Candidate :=
  if cfg.supports_multi_cd then env.raw_search_results
  else env.raw_search_results.filter keepCandidate

/-- `files[0].file_name` of a candidate, the value the per-language
filename list is built from in `find_subtitles_for_nfo`.  The search
filter guarantees a single file with a non-null name whenever multi-CD
support is off; `""` stands in for the out-of-contract cases (where
CPython would index an empty list or hand `None` to the parser). -/
def fname0 (c : Candidate) : String :=
  (c.files.headI.file_name).getD ""

/-- The `for lang in search_params['languages']` loop of
`find_subtitles_for_nfo`: per language, collect the filenames of that
language's candidates, skip the language if there are none, ask
`get_best_match_ix` for the best index, and on a hit append
`search_results[result_ix]` — note the source indexes the FULL result
list with an index computed over the per-language sublist. -/
def matchLoop (parse : String → AttribMap) (nfo_file : String)
    (search_results : List Candidate) : List String → GrabResult (List Candidate)
  | [] => .ret []
  | lang :: rest =>
    let subtitle_fnames := (search_results.filter (fun item => item.language == lang)).map fname0
    if subtitle_fnames.isEmpty then matchLoop parse nfo_file search_results rest
    else
      match get_best_match_ix parse nfo_file subtitle_fnames with
      | .raised e => .raised e
      | .ret none => matchLoop parse nfo_file search_results rest
      | .ret (some result_ix) =>
        match matchLoop parse nfo_file search_results rest with
        | .raised e => .raised e
        | .ret result_rest => .ret (search_results.getD result_ix default :: result_rest)

/-- `SubtitlesGrabber.find_subtitles_for_nfo(nfo_file, search_params)`:
read `imdbid` from the nfo (raising `NfoTypeError` when the field is
absent), run the filtered search, return `[]` on an empty result, else
run the per-language match loop. -/
def find_subtitles_for_nfo (cfg : Config) (env : Env) (nfo_file : String)
    (langs : List String) : GrabResult (List Candidate) :=
  match env.nfo_imdb with
  | none => .raised .nfoType
  | some _imdb_id =>
    if (search cfg env).isEmpty then .ret []
    else matchLoop env.parse nfo_file (search cfg env) langs

/-- The `for language in self.languages` download loop of
`grab_subtitles_for_file`: skip languages with no matched item; raise
on a multi-CD item when unsupported; `files[0]` raises `IndexError` on
an empty file list; after `download_item` the destination is checked
with `os.path.isfile` (`env.verify`); on a verified download the
language is accumulated and, unless `get_all_langs`, the loop breaks. -/
def downloadLoop (cfg : Config) (env : Env) (base_fname : String)
    (subtitle_items : List Candidate) : List String → GrabResult (List String)
  | [] => .ret []
  | language :: rest =>
    match subtitle_items.find? (fun it => it.language == language) with
    | none => downloadLoop cfg env base_fname subtitle_items rest
    | some item =>
      if item.files.length > 1 && !cfg.supports_multi_cd then .raised .multiCd
      else
        match item.files.head? with
        | none => .raised .indexError
        | some _file_item =>
          let dst_stfile := build_subtitle_filename base_fname language
          if env.verify dst_stfile then
            if !cfg.get_all_langs then .ret [language]
            else
              match downloadLoop cfg env base_fname subtitle_items rest with
              | .raised e => .raised e
              | .ret more => .ret (language :: more)
          else downloadLoop cfg env base_fname subtitle_items rest

/-- The missing-language computation of `grab_subtitles_for_file`:
`[lang for lang in self.languages if lang not in existing]`. -/
def missingLangs (cfg : Config) (env : Env) : List String :=
  cfg.languages.filter (fun lang => !(env.existing_langs.contains lang))

/-- `SubtitlesGrabber.grab_subtitles_for_file(fname)`.  Besides the
`(status, info)` pair the embedding returns the number of calls made to
the catalog search capability (0 before the search step, 1 from it on),
so quota/short-circuit claims can speak about "no search performed".
`base_fname` is `os.path.splitext(fname)[0]`. -/
def grab_subtitles_for_file (cfg : Config) (env : Env) (base_fname : String) :
    GrabResult (Status × Nat) :=
  if !has_downloads env then .ret (.dllimit, 0)
  else if (missingLangs cfg env).isEmpty then .ret (.exist, 0)
  else if !((missingLangs cfg env).contains cfg.languages.headI) && !cfg.get_all_langs then
    .ret (.exist, 0)
  else if !env.nfo_exists then .raised .assertFailed
  else
    match find_subtitles_for_nfo cfg env (base_fname ++ ".nfo") (missingLangs cfg env) with
    | .raised e => .raised e
    | .ret subtitle_items =>
      if subtitle_items.isEmpty then .ret (.notfound, 1)
      else
        match downloadLoop cfg env base_fname subtitle_items cfg.languages with
        | .raised e => .raised e
        | .ret downloaded_languages =>
          if downloaded_languages.isEmpty then .ret (.failed, 1)
          else .ret (.downloaded downloaded_languages, 1)

/-! ## subs_grabber.py — batch runner `grab_subtitles` -/

/-- What one iteration of the batch loop observes for one nfo file:
either `grab_subtitles_for_file` returned a status, or it raised
`NfoTypeError`, or it raised some other exception. -/
inductive ProcOutcome where
  | ret (st : Status)
  | nfoTypeRaised
  | otherRaised
deriving DecidableEq, Repr

/-- One nfo file as the batch loop sees it: `has_media` is
`len(glob(base + ".*")) != 1` (the nfo is associated with a media
file), `outcome` is what the call on it produces. -/
structure BatchAsset where
  has_media : Bool
  outcome : ProcOutcome
deriving DecidableEq, Repr

/-- The per-file loop of `grab_subtitles(root_dir, langs)`: skip nfo
files without an associated media file; on status `"dllimit"` break
(recording that the batch stopped early); on `NfoTypeError` continue
with no record; on any other exception record `"failed"`; otherwise
record the returned status in `results`.  The embedding returns the
list of recorded statuses in order plus the early-stop flag. -/
def grab_subtitles : List BatchAsset → List Status × Bool
  | [] => ([], false)
  | a :: rest =>
    if !a.has_media then grab_subtitles rest
    else
      match a.outcome with
      | .ret st =>
        if st = .dllimit then ([], true)
        else
          let (records, stopped) := grab_subtitles rest
          (st :: records, stopped)
      | .nfoTypeRaised => grab_subtitles rest
      | .otherRaised =>
        let (records, stopped) := grab_subtitles rest
        (Status.failed :: records, stopped)

/-! Scratch sanity checks (concrete evaluation). -/

def mapA : AttribMap := fun k =>
  if k = "quality" then some "720p"
  else if k = "codec" then some "x264"
  else if k = "resolution" then some "1280x720"
  else if k = "encoder" then some "grp"
  else if k = "audio" then some "aac"
  else none

def mapNone : AttribMap := fun _ => none

example : attribMatchScore mapA mapA = 9 := by decide
example : attribMatchScore mapNone mapNone = 9/2 := by decide
example : get_best_match_ix (fun _ => mapA) "r" ["a", "b"] = .ret (some 0) := by decide
example : get_best_match_ix (fun _ => mapA) "r" [] = .raised .emptyCandidateSet := by decide

def cEn : Candidate := ⟨"en", [⟨1, some "A.mkv"⟩]⟩
def cEs : Candidate := ⟨"es", [⟨2, some "B.mkv"⟩]⟩

example : matchLoop (fun _ => mapA) "r.nfo" [cEn, cEs] ["es"] = .ret [cEn] := by decide

def cfg0 : Config := ⟨["en"], false, false⟩

def env0 : Env :=
  { remaining_downloads := some 0
    existing_langs := ["en"]
    nfo_exists := true
    nfo_imdb := some "tt1"
    raw_search_results := []
    parse := fun _ => mapA
    verify := fun _ => true }

example : grab_subtitles_for_file cfg0 env0 "b" = .ret (.dllimit, 0) := by decide
example : grab_subtitles [⟨true, .nfoTypeRaised⟩] = ([], false) := by decide
example : grab_subtitles [⟨true, .otherRaised⟩, ⟨true, .ret .dllimit⟩, ⟨true, .ret .exist⟩]
    = ([Status.failed], true) := by decide

/-! ## Helper lemmas: `listMax` and `pyIndex` -/

theorem foldl_max_mem (xs : List ℚ) (x : ℚ) : xs.foldl max x ∈ x :: xs := by
  induction xs generalizing x with
  | nil => simp [List.foldl]
  | cons y ys ih =>
    simp only [List.foldl_cons]
    rcases List.mem_cons.mp (ih (max x y)) with h1 | h1
    · rcases max_choice x y with hm | hm
      · rw [h1, hm]; exact List.mem_cons_self _ _
      · rw [h1, hm]; exact List.mem_cons.mpr (Or.inr (List.mem_cons_self _ _))
    · exact List.mem_cons.mpr (Or.inr (List.mem_cons.mpr (Or.inr h1)))

theorem le_foldl_max (xs : List ℚ) (x : ℚ) :
    x ≤ xs.foldl max x ∧ ∀ y ∈ xs, y ≤ xs.foldl max x := by
  induction xs generalizing x with
  | nil => simp
  | cons y ys ih =>
    obtain ⟨h1, h2⟩ := ih (max x y)
    refine ⟨le_trans (le_max_left x y) h1, ?_⟩
    intro z hz
    rcases List.mem_cons.mp hz with rfl | hz
    · exact le_trans (le_max_right x z) h1
    · exact h2 z hz

theorem listMax_spec (x : ℚ) (xs : List ℚ) :
    ∃ m, listMax (x :: xs) = some m ∧ m ∈ x :: xs ∧ ∀ y ∈ x :: xs, y ≤ m := by
  refine ⟨xs.foldl max x, rfl, foldl_max_mem xs x, ?_⟩
  intro y hy
  rcases List.mem_cons.mp hy with rfl | hy
  · exact (le_foldl_max xs y).1
  · exact (le_foldl_max xs x).2 y hy

theorem pyIndex_lt_length {α : Type} [DecidableEq α] {x : α} {l : List α} (h : x ∈ l) :
    pyIndex x l < l.length := by
  induction l with
  | nil => cases h
  | cons y ys ih =>
    by_cases hy : y = x
    · simp [pyIndex, hy]
    · have hx : x ∈ ys := by
        rcases List.mem_cons.mp h with rfl | hx
        · exact absurd rfl hy
        · exact hx
      simp only [pyIndex, if_neg hy, List.length_cons]
      exact Nat.succ_lt_succ (ih hx)

theorem pyIndex_get {α : Type} [DecidableEq α] {x : α} {l : List α} (h : x ∈ l) :
    l.get ⟨pyIndex x l, pyIndex_lt_length h⟩ = x := by
  induction l with
  | nil => cases h
  | cons y ys ih =>
    by_cases hy : y = x
    · simp [pyIndex, hy]
    · have hx : x ∈ ys := by
        rcases List.mem_cons.mp h with rfl | hx
        · exact absurd rfl hy
        · exact hx
      have hrec := ih hx
      simp only [pyIndex, if_neg hy]
      simpa using hrec

theorem pyIndex_first {α : Type} [DecidableEq α] {x : α} {l : List α} {j : Nat}
    (hj : j < l.length) (hlt : j < pyIndex x l) : l.get ⟨j, hj⟩ ≠ x := by
  induction l generalizing j with
  | nil => simp at hj
  | cons y ys ih =>
    by_cases hy : y = x
    · simp [pyIndex, hy] at hlt
    · cases j with
      | zero => simpa using hy
      | succ n =>
        simp only [pyIndex, if_neg hy] at hlt
        have hn : n < ys.length := by
          simpa using Nat.lt_of_succ_lt_succ hj
        have := ih hn (Nat.lt_of_succ_lt_succ hlt)
        simpa using this

/-! ## Helper lemmas: the metric -/

/-- The per-key contribution as §4.1 of the spec words it: the weight
when both sides have the key with equal values, `0` when both have it
with different values, half the weight whenever either side lacks it. -/
def specKeyScore (w : ℚ) (v1 v2 : Option String) : ℚ :=
  match v1, v2 with
  | some x, some y => if x = y then w else 0
  | _, _ => w * (1/2)

/-- The claimed closed form of the metric: the sum of the five per-key
contributions at the documented weights. -/
def claimedScore (a1 a2 : AttribMap) : ℚ :=
  specKeyScore 5 (a1 "quality") (a2 "quality") +
  specKeyScore (3/2) (a1 "codec") (a2 "codec") +
  specKeyScore 1 (a1 "resolution") (a2 "resolution") +
  specKeyScore 1 (a1 "encoder") (a2 "encoder") +
  specKeyScore (1/2) (a1 "audio") (a2 "audio")

/-- Every metric key is present in the map. -/
def allKeysPresent (a : AttribMap) : Prop :=
  (a "quality").isSome = true ∧ (a "codec").isSome = true ∧
  (a "resolution").isSome = true ∧ (a "encoder").isSome = true ∧
  (a "audio").isSome = true

theorem attribMatchScore_unfold (a1 a2 : AttribMap) :
    attribMatchScore a1 a2 =
      0 + keyScore a1 a2 "quality" 5 + keyScore a1 a2 "codec" (3/2) +
      keyScore a1 a2 "resolution" 1 + keyScore a1 a2 "encoder" 1 +
      keyScore a1 a2 "audio" (1/2) := by
  simp [attribMatchScore, metric_weights]

theorem keyScore_eq_spec (a1 a2 : AttribMap) (k : String) (w : ℚ) :
    keyScore a1 a2 k w = specKeyScore w (a1 k) (a2 k) := by
  unfold keyScore specKeyScore missing_key_factor
  cases a1 k <;> cases a2 k
  · rfl
  · rfl
  · rfl
  · split <;> simp

theorem keyScore_symm (a1 a2 : AttribMap) (k : String) (w : ℚ) :
    keyScore a1 a2 k w = keyScore a2 a1 k w := by
  unfold keyScore
  cases a1 k <;> cases a2 k
  · rfl
  · rfl
  · rfl
  · simp only [eq_comm]

theorem specKeyScore_nonneg (v1 v2 : Option String) {w : ℚ} (hw : 0 ≤ w) :
    0 ≤ specKeyScore w v1 v2 := by
  unfold specKeyScore
  cases v1 <;> cases v2 <;> (try split) <;> (try split) <;> linarith

theorem specKeyScore_le (v1 v2 : Option String) {w : ℚ} (hw : 0 ≤ w) :
    specKeyScore w v1 v2 ≤ w := by
  unfold specKeyScore
  cases v1 <;> cases v2 <;> (try split) <;> (try split) <;> linarith

theorem keyScore_nonneg (a1 a2 : AttribMap) (k : String) {w : ℚ} (hw : 0 ≤ w) :
    0 ≤ keyScore a1 a2 k w := by
  rw [keyScore_eq_spec]
  exact specKeyScore_nonneg _ _ hw

theorem keyScore_le (a1 a2 : AttribMap) (k : String) {w : ℚ} (hw : 0 ≤ w) :
    keyScore a1 a2 k w ≤ w := by
  rw [keyScore_eq_spec]
  exact specKeyScore_le _ _ hw

/-! ## Helper lemmas: the download loop and the orchestrator -/

/-- The condition under which the download loop accumulates a language:
some item of that language was matched, and the destination file exists
after the download. -/
def dlPred (env : Env) (base_fname : String) (subtitle_items : List Candidate)
    (language : String) : Bool :=
  (subtitle_items.find? (fun it => it.language == language)).isSome &&
  env.verify (build_subtitle_filename base_fname language)

theorem downloadLoop_all_langs (cfg : Config) (env : Env) (base_fname : String)
    (subtitle_items : List Candidate)
    (hone : ∀ it ∈ subtitle_items, it.files.length = 1)
    (hall : cfg.get_all_langs = true) (langs : List String) :
    downloadLoop cfg env base_fname subtitle_items langs =
      .ret (langs.filter (dlPred env base_fname subtitle_items)) := by
  induction langs with
  | nil => rfl
  | cons l rest ih =>
    unfold downloadLoop
    cases hf : subtitle_items.find? (fun it => it.language == l) with
    | none =>
      have hp : dlPred env base_fname subtitle_items l = false := by
        simp [dlPred, hf]
      simp only [List.filter_cons, hp, ih]
      simp
    | some item =>
      have hitem : item ∈ subtitle_items := List.mem_of_find?_eq_some hf
      have hlen : item.files.length = 1 := hone item hitem
      obtain ⟨f, hfeq⟩ := List.length_eq_one.mp hlen
      cases hv : env.verify (build_subtitle_filename base_fname l) with
      | false =>
        have hp : dlPred env base_fname subtitle_items l = false := by
          simp [dlPred, hf, hv]
        simp only [List.filter_cons, hp, hlen, hfeq, hall, hv, ih]
        simp
      | true =>
        have hp : dlPred env base_fname subtitle_items l = true := by
          simp [dlPred, hf, hv]
        simp only [List.filter_cons, hp, hlen, hfeq, hall, hv, ih]
        simp

theorem downloadLoop_first_lang (cfg : Config) (env : Env) (base_fname : String)
    (subtitle_items : List Candidate)
    (hone : ∀ it ∈ subtitle_items, it.files.length = 1)
    (hall : cfg.get_all_langs = false) (langs : List String) :
    downloadLoop cfg env base_fname subtitle_items langs =
      .ret ((langs.find? (dlPred env base_fname subtitle_items)).toList) := by
  induction langs with
  | nil => rfl
  | cons l rest ih =>
    unfold downloadLoop
    cases hf : subtitle_items.find? (fun it => it.language == l) with
    | none =>
      have hp : dlPred env base_fname subtitle_items l = false := by
        simp [dlPred, hf]
      simp only [List.find?_cons, hp, ih]
    | some item =>
      have hitem : item ∈ subtitle_items := List.mem_of_find?_eq_some hf
      have hlen : item.files.length = 1 := hone item hitem
      obtain ⟨f, hfeq⟩ := List.length_eq_one.mp hlen
      cases hv : env.verify (build_subtitle_filename base_fname l) with
      | false =>
        have hp : dlPred env base_fname subtitle_items l = false := by
          simp [dlPred, hf, hv]
        simp only [List.find?_cons, hp, hlen, hfeq, hall, hv, ih]
        simp
      | true =>
        have hp : dlPred env base_fname subtitle_items l = true := by
          simp [dlPred, hf, hv]
        simp only [List.find?_cons, hp, hlen, hfeq, hall, hv]
        simp

/-- After the quota, missing-language and priority gates all pass, any
returned outcome of the orchestrator comes from the search phase: its
status is `notfound`, `downloaded` (with a non-empty list) or `failed`,
and exactly one search was issued. -/
theorem grab_post_gate_status (cfg : Config) (env : Env) (base_fname : String)
    (hq : has_downloads env = true)
    (hmiss : (missingLangs cfg env).isEmpty = false)
    (hgate : (!((missingLangs cfg env).contains cfg.languages.headI) && !cfg.get_all_langs) = false)
    (st : Status) (n : Nat)
    (hret : grab_subtitles_for_file cfg env base_fname = .ret (st, n)) :
    (st = .notfound ∨ (∃ l, st = .downloaded l ∧ l ≠ []) ∨ st = .failed) ∧ n = 1 := by
  unfold grab_subtitles_for_file at hret
  rw [hq] at hret
  simp only [Bool.not_true, Bool.false_eq_true, if_false, hmiss, hgate] at hret
  split at hret
  · exact GrabResult.noConfusion hret
  · split at hret
    · exact GrabResult.noConfusion hret
    · split at hret
      · simp only [GrabResult.ret.injEq, Prod.mk.injEq] at hret
        exact ⟨Or.inl hret.1.symm, hret.2.symm⟩
      · split at hret
        · exact GrabResult.noConfusion hret
        · rename_i dls _
          split at hret
          · simp only [GrabResult.ret.injEq, Prod.mk.injEq] at hret
            exact ⟨Or.inr (Or.inr hret.1.symm), hret.2.symm⟩
          · simp only [GrabResult.ret.injEq, Prod.mk.injEq] at hret
            refine ⟨Or.inr (Or.inl ⟨dls, hret.1.symm, ?_⟩), hret.2.symm⟩
            rename_i hne
            intro hnil
            exact hne (by simp [hnil])

/-! ## Claim theorems: the matcher and the metric -/

/-- C1: evaluation of the Match step at a failing input.  The search
result holds an "en" candidate (index 0 of the full list) and an "es"
candidate (index 1); only "es" is requested.  The per-language candidate
list for "es" is `[cEs]` and its best acceptable match is at index 0 of
that list, yet the loop keeps `search_results[0] = cEn`, a candidate of
language "en" that is not in the per-language list at all: the source
indexes the full result list with the per-language index, contradicting
the claim (and the function's own docstring, "the best match for each
language"). -/
theorem C1_match_keeps_full_list_candidate :
    ([cEn, cEs].filter (fun item => item.language == "es")) = [cEs] ∧
    get_best_match_ix (fun _ => mapA) "r.nfo" [fname0 cEs] = .ret (some 0) ∧
    matchLoop (fun _ => mapA) "r.nfo" [cEn, cEs] ["es"] = .ret [cEn] ∧
    cEn.language = "en" ∧ cEn ≠ cEs := by decide

/-- C2: for every non-empty candidate list there is a maximum score `m`
of the computed match scores; `get_best_match_ix` returns no match
exactly when `m` is strictly below the threshold, and otherwise returns
an index of a candidate scoring `m` such that every earlier index scores
strictly differently — the smallest index attaining the maximum, so ties
go to the leftmost candidate. -/
theorem C2_best_match_threshold_and_leftmost_tie (parse : String → AttribMap)
    (fn1 : String) (fns2 : List String) (h : fns2 ≠ []) :
    ∃ m, m ∈ calc_match_scores parse fn1 fns2 ∧
      (∀ s ∈ calc_match_scores parse fn1 fns2, s ≤ m) ∧
      (get_best_match_ix parse fn1 fns2 = .ret none ↔ m < thresh) ∧
      (thresh ≤ m → ∃ i, ∃ hi : i < (calc_match_scores parse fn1 fns2).length,
        get_best_match_ix parse fn1 fns2 = .ret (some i) ∧
        (calc_match_scores parse fn1 fns2).get ⟨i, hi⟩ = m ∧
        ∀ j, ∀ hj : j < (calc_match_scores parse fn1 fns2).length,
          j < i → (calc_match_scores parse fn1 fns2).get ⟨j, hj⟩ ≠ m) := by
  obtain ⟨x, xs, hx⟩ : ∃ x xs, calc_match_scores parse fn1 fns2 = x :: xs := by
    cases hs : calc_match_scores parse fn1 fns2 with
    | nil =>
      simp only [calc_match_scores] at hs
      exact absurd (List.map_eq_nil_iff.mp hs) h
    | cons x xs => exact ⟨x, xs, rfl⟩
  obtain ⟨m, hmax, hmem, hle⟩ := listMax_spec x xs
  have hmemS : m ∈ calc_match_scores parse fn1 fns2 := hx ▸ hmem
  have hleS : ∀ s ∈ calc_match_scores parse fn1 fns2, s ≤ m := by
    intro s hs
    exact hle s (hx ▸ hs)
  by_cases hm : m < thresh
  · have hg : get_best_match_ix parse fn1 fns2 = .ret none := by
      unfold get_best_match_ix
      rw [hx]
      simp only [hmax]
      rw [if_pos hm]
    exact ⟨m, hmemS, hleS, by simp [hg, hm], fun ht => absurd ht (by linarith)⟩
  · have hg : get_best_match_ix parse fn1 fns2 =
        .ret (some (pyIndex m (calc_match_scores parse fn1 fns2))) := by
      unfold get_best_match_ix
      rw [hx]
      simp only [hmax]
      rw [if_neg hm]
    refine ⟨m, hmemS, hleS, ?_, ?_⟩
    · simp only [hg]
      exact iff_of_false (by simp) hm
    · intro _
      exact ⟨pyIndex m (calc_match_scores parse fn1 fns2), pyIndex_lt_length hmemS,
        hg, pyIndex_get hmemS, fun j hj hlt => pyIndex_first hj hlt⟩

/-- Witness for C2 at a concrete input: two candidates both scoring 9
(above the threshold 2); the maximum exists and index 0 — the leftmost
of the tie — is returned. -/
theorem C2_witness :
    ((["a", "b"] : List String) ≠ []) ∧
    (∃ m, m ∈ calc_match_scores (fun _ => mapA) "r" ["a", "b"] ∧
      (∀ s ∈ calc_match_scores (fun _ => mapA) "r" ["a", "b"], s ≤ m) ∧
      (get_best_match_ix (fun _ => mapA) "r" ["a", "b"] = .ret none ↔ m < thresh) ∧
      (thresh ≤ m → ∃ i, ∃ hi : i < (calc_match_scores (fun _ => mapA) "r" ["a", "b"]).length,
        get_best_match_ix (fun _ => mapA) "r" ["a", "b"] = .ret (some i) ∧
        (calc_match_scores (fun _ => mapA) "r" ["a", "b"]).get ⟨i, hi⟩ = m ∧
        ∀ j, ∀ hj : j < (calc_match_scores (fun _ => mapA) "r" ["a", "b"]).length,
          j < i → (calc_match_scores (fun _ => mapA) "r" ["a", "b"]).get ⟨j, hj⟩ ≠ m)) :=
  ⟨by decide, C2_best_match_threshold_and_leftmost_tie (fun _ => mapA) "r" ["a", "b"] (by decide)⟩

/-- C3: calling `get_best_match_ix` with an empty candidate sequence
fails with the `EmptyCandidateSet` condition (the `ValueError` raised by
`max` on an empty sequence) rather than returning any value — in
particular it does not return "no match". -/
theorem C3_empty_candidates_raise (parse : String → AttribMap) (fn1 : String) :
    get_best_match_ix parse fn1 [] = .raised .emptyCandidateSet := rfl

/-- C4: the metric score equals the sum over the five fixed keys of the
claimed per-key contribution (weight on present-and-equal, 0 on
present-and-unequal, half the weight whenever either side lacks the
key); consequently a map with all keys present scores 9 against
itself. -/
theorem C4_metric_is_weighted_key_sum (a1 a2 a : AttribMap) (h : allKeysPresent a) :
    attribMatchScore a1 a2 = claimedScore a1 a2 ∧ attribMatchScore a a = 9 := by
  constructor
  · rw [attribMatchScore_unfold]
    unfold claimedScore
    simp only [keyScore_eq_spec]
    ring
  · obtain ⟨h1, h2, h3, h4, h5⟩ := h
    obtain ⟨v1, hv1⟩ := Option.isSome_iff_exists.mp h1
    obtain ⟨v2, hv2⟩ := Option.isSome_iff_exists.mp h2
    obtain ⟨v3, hv3⟩ := Option.isSome_iff_exists.mp h3
    obtain ⟨v4, hv4⟩ := Option.isSome_iff_exists.mp h4
    obtain ⟨v5, hv5⟩ := Option.isSome_iff_exists.mp h5
    rw [attribMatchScore_unfold]
    simp only [keyScore_eq_spec, hv1, hv2, hv3, hv4, hv5, specKeyScore, if_pos rfl]
    norm_num

/-- Witness for C4 at concrete maps: `mapA` has every key present, and
the two conjuncts hold at `(mapNone, mapA, mapA)`. -/
theorem C4_witness :
    allKeysPresent mapA ∧
    (attribMatchScore mapNone mapA = claimedScore mapNone mapA ∧
      attribMatchScore mapA mapA = 9) :=
  ⟨⟨rfl, rfl, rfl, rfl, rfl⟩,
    C4_metric_is_weighted_key_sum mapNone mapA mapA ⟨rfl, rfl, rfl, rfl, rfl⟩⟩

/-- C10: the metric is symmetric in its two arguments and its value
always lies between 0 and the sum of the weights, 9. -/
theorem C10_metric_symmetric_and_bounded (a1 a2 : AttribMap) :
    attribMatchScore a1 a2 = attribMatchScore a2 a1 ∧
    0 ≤ attribMatchScore a1 a2 ∧ attribMatchScore a1 a2 ≤ 9 := by
  refine ⟨?_, ?_, ?_⟩
  · rw [attribMatchScore_unfold, attribMatchScore_unfold]
    simp only [keyScore_symm a1 a2]
  · rw [attribMatchScore_unfold]
    have b1 := keyScore_nonneg a1 a2 "quality" (by norm_num : (0:ℚ) ≤ 5)
    have b2 := keyScore_nonneg a1 a2 "codec" (by norm_num : (0:ℚ) ≤ 3/2)
    have b3 := keyScore_nonneg a1 a2 "resolution" (by norm_num : (0:ℚ) ≤ 1)
    have b4 := keyScore_nonneg a1 a2 "encoder" (by norm_num : (0:ℚ) ≤ 1)
    have b5 := keyScore_nonneg a1 a2 "audio" (by norm_num : (0:ℚ) ≤ 1/2)
    linarith
  · rw [attribMatchScore_unfold]
    have b1 := keyScore_le a1 a2 "quality" (by norm_num : (0:ℚ) ≤ 5)
    have b2 := keyScore_le a1 a2 "codec" (by norm_num : (0:ℚ) ≤ 3/2)
    have b3 := keyScore_le a1 a2 "resolution" (by norm_num : (0:ℚ) ≤ 1)
    have b4 := keyScore_le a1 a2 "encoder" (by norm_num : (0:ℚ) ≤ 1)
    have b5 := keyScore_le a1 a2 "audio" (by norm_num : (0:ℚ) ≤ 1/2)
    linarith

/-! ## Claim theorems: the orchestrator -/

/-- An environment whose quota capability reports no limit and whose
asset already has English subtitles. -/
def envU : Env :=
  { remaining_downloads := none
    existing_langs := ["en"]
    nfo_exists := true
    nfo_imdb := some "tt1"
    raw_search_results := []
    parse := fun _ => mapA
    verify := fun _ => true }

/-- A returned `dllimit` status can only come from the quota gate. -/
theorem grab_dllimit_only_when_quota (cfg : Config) (env : Env) (base_fname : String)
    (n : Nat)
    (hret : grab_subtitles_for_file cfg env base_fname = .ret (.dllimit, n)) :
    has_downloads env = false := by
  by_contra hq
  rw [Bool.not_eq_false] at hq
  unfold grab_subtitles_for_file at hret
  rw [hq] at hret
  simp only [Bool.not_true, Bool.false_eq_true, if_false] at hret
  split at hret
  · simp at hret
  · split at hret
    · simp at hret
    · split at hret
      · exact GrabResult.noConfusion hret
      · split at hret
        · exact GrabResult.noConfusion hret
        · split at hret
          · simp at hret
          · split at hret
            · exact GrabResult.noConfusion hret
            · split at hret <;> simp at hret

/-- C5 counterexample: the source checks the download quota before
computing the missing languages, so an asset with nothing missing but an
exhausted quota yields `(dllimit, 0)`, not `(exist, 0)` as the claim
requires: `cfg0` desires only "en", `env0` already has "en" locally, yet
the outcome is `dllimit` because `remaining_downloads = 0`. -/
theorem C5_counterexample :
    missingLangs cfg0 env0 = [] ∧
    grab_subtitles_for_file cfg0 env0 "b" = .ret (.dllimit, 0) ∧
    (.ret (.dllimit, 0) : GrabResult (Status × Nat)) ≠ .ret (.exist, 0) := by decide

/-- C5 (amended): PROVIDED the quota gate passes, an asset with no
missing language returns `(exist, 0)` — no search; with
`get_all_langs = false` and the top-priority language not missing it
also returns `(exist, 0)`; and when the top-priority language IS
missing the priority gate does not short-circuit: any returned outcome
is not `exist` and issued exactly one search. -/
theorem C5_amended_priority_gate (cfg : Config) (env : Env) (base_fname : String)
    (hq : has_downloads env = true) :
    ((missingLangs cfg env).isEmpty = true →
      grab_subtitles_for_file cfg env base_fname = .ret (.exist, 0)) ∧
    ((missingLangs cfg env).contains cfg.languages.headI = false →
      cfg.get_all_langs = false →
      grab_subtitles_for_file cfg env base_fname = .ret (.exist, 0)) ∧
    ((missingLangs cfg env).contains cfg.languages.headI = true →
      ∀ st n, grab_subtitles_for_file cfg env base_fname = .ret (st, n) →
        st ≠ .exist ∧ n = 1) := by
  refine ⟨?_, ?_, ?_⟩
  · intro hme
    unfold grab_subtitles_for_file
    rw [hq]
    simp [hme]
  · intro hc hga
    unfold grab_subtitles_for_file
    rw [hq]
    cases hme : (missingLangs cfg env).isEmpty with
    | true => simp [hme]
    | false =>
      simp only [Bool.not_true, Bool.false_eq_true, if_false, hme, hc, hga,
        Bool.not_false, Bool.and_self, if_true]
  · intro hc st n hret
    have hme : (missingLangs cfg env).isEmpty = false := by
      cases hme : (missingLangs cfg env).isEmpty with
      | false => rfl
      | true =>
        rw [List.isEmpty_iff.mp hme] at hc
        simp at hc
    have hgate : (!((missingLangs cfg env).contains cfg.languages.headI)
        && !cfg.get_all_langs) = false := by
      rw [hc]
      simp
    obtain ⟨hcase, hn⟩ :=
      grab_post_gate_status cfg env base_fname hq hme hgate st n hret
    refine ⟨?_, hn⟩
    rcases hcase with h | ⟨l, h, _⟩ | h <;> rw [h] <;> simp

/-- Witness for C5 (amended) at a concrete input: quota unlimited,
desired "en" already existing — the three amended conjuncts hold for
`cfg0`/`envU`, and the first one fires concretely. -/
theorem C5_witness :
    has_downloads envU = true ∧
    grab_subtitles_for_file cfg0 envU "b" = .ret (.exist, 0) :=
  ⟨rfl, (C5_amended_priority_gate cfg0 envU "b" rfl).1 rfl⟩

/-- C6: a quota capability reporting a defined remaining-download
counter equal to zero makes the orchestrator return `(dllimit, 0)` — no
search performed; an undefined counter means unlimited quota, and no
returned outcome is ever `dllimit` then. -/
theorem C6_quota_exhausted_or_unlimited (cfg : Config) (env : Env) (base_fname : String) :
    (env.remaining_downloads = some 0 →
      grab_subtitles_for_file cfg env base_fname = .ret (.dllimit, 0)) ∧
    (env.remaining_downloads = none →
      ∀ st n, grab_subtitles_for_file cfg env base_fname = .ret (st, n) →
        st ≠ .dllimit) := by
  constructor
  · intro h0
    have hq : has_downloads env = false := by simp [has_downloads, h0]
    unfold grab_subtitles_for_file
    rw [hq]
    simp
  · intro hnone st n hret hd
    subst hd
    have hq := grab_dllimit_only_when_quota cfg env base_fname n hret
    simp [has_downloads, hnone] at hq

/-- Witness for C6: with `env0` (counter 0) the outcome is `dllimit`
with no search; with `envU` (counter undefined) the concrete outcome
`exist` is not `dllimit`. -/
theorem C6_witness :
    grab_subtitles_for_file cfg0 env0 "b" = .ret (.dllimit, 0) ∧
    Status.exist ≠ Status.dllimit :=
  ⟨(C6_quota_exhausted_or_unlimited cfg0 env0 "b").1 rfl,
   (C6_quota_exhausted_or_unlimited cfg0 envU "b").2 rfl Status.exist 0 (by decide)⟩

/-- An environment for exercising the download phase: quota unlimited,
nothing existing locally, nfo present with an identifier, the catalog
returning the single-file "en" candidate, every write verified. -/
def envV : Env :=
  { remaining_downloads := none
    existing_langs := []
    nfo_exists := true
    nfo_imdb := some "tt1"
    raw_search_results := [cEn]
    parse := fun _ => mapA
    verify := fun _ => true }

/-- C7: the Download step iterates the priority-ordered desired
languages over the matched set.  With `get_all_langs = false` the
accumulated list is the first language that is matched and verifies
(the loop breaks after the first verified success); with `true` it is
every matched-and-verified language in priority order; and the
orchestrator finalizes a non-empty accumulated list as
`downloaded(list)` and an empty one as `failed`. -/
theorem C7_download_priority_break_and_finalize (cfg : Config) (env : Env)
    (base_fname : String) (subtitle_items : List Candidate)
    (hone : ∀ it ∈ subtitle_items, it.files.length = 1) :
    (cfg.get_all_langs = true →
      downloadLoop cfg env base_fname subtitle_items cfg.languages =
        .ret (cfg.languages.filter (dlPred env base_fname subtitle_items))) ∧
    (cfg.get_all_langs = false →
      downloadLoop cfg env base_fname subtitle_items cfg.languages =
        .ret ((cfg.languages.find? (dlPred env base_fname subtitle_items)).toList)) ∧
    (∀ dls, has_downloads env = true →
      (missingLangs cfg env).isEmpty = false →
      (!((missingLangs cfg env).contains cfg.languages.headI) && !cfg.get_all_langs) = false →
      env.nfo_exists = true →
      find_subtitles_for_nfo cfg env (base_fname ++ ".nfo") (missingLangs cfg env) =
        .ret subtitle_items →
      subtitle_items.isEmpty = false →
      downloadLoop cfg env base_fname subtitle_items cfg.languages = .ret dls →
      grab_subtitles_for_file cfg env base_fname =
        .ret (if dls.isEmpty then (.failed, 1) else (.downloaded dls, 1))) := by
  refine ⟨?_, ?_, ?_⟩
  · intro hall
    exact downloadLoop_all_langs cfg env base_fname subtitle_items hone hall cfg.languages
  · intro hall
    exact downloadLoop_first_lang cfg env base_fname subtitle_items hone hall cfg.languages
  · intro dls hq hmiss hgate hnfo hfind hne hdl
    unfold grab_subtitles_for_file
    rw [hq]
    simp only [Bool.not_true, Bool.false_eq_true, if_false, hmiss, hgate, hnfo,
      Bool.not_true, hfind, hne, hdl]
    cases hde : dls.isEmpty <;> simp [hde]

/-- Witness for C7: one single-file "en" candidate as the matched set,
desired language "en", no existing subtitles, every download verified —
all three conjuncts instantiated at `cfg0`/`envV` with `dls = ["en"]`. -/
theorem C7_witness :
    (∀ it ∈ ([cEn] : List Candidate), it.files.length = 1) ∧
    downloadLoop cfg0 envV "b" [cEn] cfg0.languages =
      .ret ((cfg0.languages.find? (dlPred envV "b" [cEn])).toList) ∧
    grab_subtitles_for_file cfg0 envV "b" =
      .ret (if (["en"] : List String).isEmpty then (.failed, 1)
            else (.downloaded ["en"], 1)) := by
  have h := C7_download_priority_break_and_finalize cfg0 envV "b" [cEn] (by decide)
  exact ⟨by decide, h.2.1 rfl,
    h.2.2 ["en"] rfl (by decide) (by decide) rfl (by decide) (by decide) (by decide)⟩

/-- A multi-CD candidate (two file entries) for exercising C9. -/
def cMulti : Candidate := ⟨"en", [⟨1, some "A.mkv"⟩, ⟨2, some "A2.mkv"⟩]⟩

/-- C9: a multi-CD item selected for download while multi-file support
is disabled makes the download loop raise the unsupported-format error
(`ValueError("Unexpected format: multi-cd")`) — a hard per-asset
failure, not a silent skip; and the Search filter makes this
unreachable: every candidate that passes it has exactly one file with a
resolvable filename, and a matched set of single-file items never
raises that error. -/
theorem C9_multi_cd_raises_and_is_unreachable (cfg : Config) (env : Env)
    (base_fname lang : String) (rest : List String)
    (subtitle_items : List Candidate) (item : Candidate) :
    (cfg.supports_multi_cd = false →
      subtitle_items.find? (fun it => it.language == lang) = some item →
      item.files.length > 1 →
      downloadLoop cfg env base_fname subtitle_items (lang :: rest) =
        .raised .multiCd) ∧
    (cfg.supports_multi_cd = false →
      ∀ c ∈ search cfg env, ∃ f, c.files = [f] ∧ f.file_name.isSome = true) ∧
    ((∀ it ∈ subtitle_items, it.files.length = 1) →
      ∀ langs, downloadLoop cfg env base_fname subtitle_items langs ≠
        .raised .multiCd) := by
  refine ⟨?_, ?_, ?_⟩
  · intro hmc hf hlen
    unfold downloadLoop
    rw [hf]
    simp [hlen, hmc]
  · intro hmc c hc
    unfold search at hc
    rw [hmc] at hc
    simp only [Bool.false_eq_true, if_false] at hc
    have hkeep : keepCandidate c = true := (List.mem_filter.mp hc).2
    unfold keepCandidate at hkeep
    cases hfs : c.files with
    | nil => rw [hfs] at hkeep; exact Bool.noConfusion hkeep
    | cons f fs =>
      cases fs with
      | nil =>
        rw [hfs] at hkeep
        exact ⟨f, rfl, hkeep⟩
      | cons g gs => rw [hfs] at hkeep; exact Bool.noConfusion hkeep
  · intro hone langs
    cases hga : cfg.get_all_langs with
    | true =>
      rw [downloadLoop_all_langs cfg env base_fname subtitle_items hone hga langs]
      simp
    | false =>
      rw [downloadLoop_first_lang cfg env base_fname subtitle_items hone hga langs]
      simp

/-- Witness for C9: the multi-CD candidate `cMulti` selected for "en"
raises `multiCd`; every candidate passing the filter over
`[cEn, cMulti]` is single-file; and the single-file matched set `[cEn]`
never raises. -/
theorem C9_witness :
    downloadLoop cfg0 envV "b" [cMulti] ("en" :: []) = .raised .multiCd ∧
    (∀ c ∈ search cfg0 envV, ∃ f, c.files = [f] ∧ f.file_name.isSome = true) ∧
    downloadLoop cfg0 envV "b" [cEn] ["en"] ≠ .raised .multiCd := by
  have h1 := C9_multi_cd_raises_and_is_unreachable cfg0 envV "b" "en" [] [cMulti] cMulti
  have h2 := C9_multi_cd_raises_and_is_unreachable cfg0 envV "b" "en" [] [cEn] cMulti
  exact ⟨h1.1 rfl (by decide) (by decide), h1.2.1 rfl, h2.2.2 (by decide) ["en"]⟩

/-! ## Claim theorems: the batch runner -/

/-- The record one asset contributes to the `results` tally when the
batch does not stop at it: nothing for an nfo with no associated media
file, nothing for an `NfoTypeError` (the loop `continue`s), `failed`
for any other exception, the returned status otherwise. -/
def batchRecord (a : BatchAsset) : Option Status :=
  if !a.has_media then none
  else
    match a.outcome with
    | .ret st => if st = .dllimit then none else some st
    | .nfoTypeRaised => none
    | .otherRaised => some .failed

/-- An asset at which the batch stops: it has associated media and its
processing returns the `dllimit` status. -/
def stopsBatch (a : BatchAsset) : Prop :=
  a.has_media = true ∧ a.outcome = .ret .dllimit

instance (a : BatchAsset) : Decidable (stopsBatch a) := by
  unfold stopsBatch
  infer_instance

theorem grab_subtitles_no_stop (assets : List BatchAsset)
    (h : ∀ a ∈ assets, ¬ stopsBatch a) :
    grab_subtitles assets = (assets.filterMap batchRecord, false) := by
  induction assets with
  | nil => rfl
  | cons a rest ih =>
    have hrest := ih (fun x hx => h x (List.mem_cons_of_mem _ hx))
    have ha := h a (List.mem_cons_self _ _)
    unfold grab_subtitles
    cases hm : a.has_media with
    | false => simp [List.filterMap_cons, batchRecord, hm, hrest]
    | true =>
      cases ho : a.outcome with
      | ret st =>
        by_cases hd : st = .dllimit
        · exact absurd ⟨hm, hd ▸ ho⟩ ha
        · simp [List.filterMap_cons, batchRecord, hm, ho, hd, hrest]
      | nfoTypeRaised => simp [List.filterMap_cons, batchRecord, hm, ho, hrest]
      | otherRaised => simp [List.filterMap_cons, batchRecord, hm, ho, hrest]

theorem grab_subtitles_stops (pre post : List BatchAsset) (a : BatchAsset)
    (hpre : ∀ x ∈ pre, ¬ stopsBatch x) (ha : stopsBatch a) :
    grab_subtitles (pre ++ a :: post) = (pre.filterMap batchRecord, true) := by
  induction pre with
  | nil =>
    obtain ⟨hm, ho⟩ := ha
    unfold grab_subtitles
    simp [hm, ho]
  | cons x xs ih =>
    have hx := hpre x (List.mem_cons_self _ _)
    have hxs := ih (fun y hy => hpre y (List.mem_cons_of_mem _ hy))
    rw [List.cons_append]
    unfold grab_subtitles
    cases hm : x.has_media with
    | false => simp [List.filterMap_cons, batchRecord, hm, hxs]
    | true =>
      cases ho : x.outcome with
      | ret st =>
        by_cases hd : st = .dllimit
        · exact absurd ⟨hm, hd ▸ ho⟩ hx
        · simp [List.filterMap_cons, batchRecord, hm, ho, hd, hxs]
      | nfoTypeRaised => simp [List.filterMap_cons, batchRecord, hm, ho, hxs]
      | otherRaised => simp [List.filterMap_cons, batchRecord, hm, ho, hxs]

/-- C8 counterexample: an asset with associated media whose processing
raises `NfoTypeError` is caught by the batch loop's `continue` and
contributes NO recorded outcome — it is neither classified `failed` nor
tallied at all, so "every asset processed produces exactly one recorded
outcome" fails. -/
theorem C8_counterexample :
    grab_subtitles [⟨true, .nfoTypeRaised⟩] = ([], false) ∧
    (grab_subtitles [⟨true, .nfoTypeRaised⟩]).1.length ≠ 1 := by decide

/-- C8 (amended): only a `dllimit` outcome stops the batch early.  If
no processed asset stops it, the run records, in order, exactly
`batchRecord` per asset (`failed` for any exception other than
`NfoTypeError`; nothing for an `NfoTypeError`, which is skipped with no
record, or for an unassociated nfo) and the early-stop flag is off.  At
the first stopping asset the batch ends with the records of the
preceding assets and the flag on, leaving the remaining assets
unprocessed. -/
theorem C8_amended_batch_containment (assets pre post : List BatchAsset)
    (a : BatchAsset) (hpre : ∀ x ∈ pre, ¬ stopsBatch x) :
    ((∀ x ∈ assets, ¬ stopsBatch x) →
      grab_subtitles assets = (assets.filterMap batchRecord, false)) ∧
    (stopsBatch a →
      grab_subtitles (pre ++ a :: post) = (pre.filterMap batchRecord, true)) :=
  ⟨grab_subtitles_no_stop assets, grab_subtitles_stops pre post a hpre⟩

/-- Witness for C8 (amended): a batch of one failing and one
unassociated asset records exactly one `failed` outcome and does not
stop; prefixing a `dllimit` asset before a trailing asset stops early
with only the prefix's records. -/
theorem C8_witness :
    grab_subtitles [⟨true, .otherRaised⟩, ⟨false, .ret .exist⟩] =
      ([Status.failed], false) ∧
    grab_subtitles
        [⟨true, .otherRaised⟩, ⟨true, .ret .dllimit⟩, ⟨true, .ret .exist⟩] =
      ([Status.failed], true) := by
  have h1 := C8_amended_batch_containment
    [⟨true, .otherRaised⟩, ⟨false, .ret .exist⟩]
    [⟨true, .otherRaised⟩] [⟨true, .ret .exist⟩] ⟨true, .ret .dllimit⟩
    (by decide)
  exact ⟨h1.1 (by decide), h1.2 (by decide)⟩

end SubsGrab
